import Mathlib

/-!
Verification of the Sunbiz live-search core: the HTML extractor
(parseSunbiz), the bounded TTL cache (getCache / setCache), and the GET
route handler, shallowly embedded from the TypeScript source.
-/

namespace Sunbiz

/-- One located business entity, embedding the source type SunbizResult. -/
structure SunbizResult where
  name : String
  status : Option String
  documentNumber : Option String
  url : Option String
deriving DecidableEq, Repr

/-- Embedding of the source type CacheEntry: value plus absolute expiry time. -/
structure CacheEntry where
  value : List SunbizResult
  expiresAt : Int
deriving DecidableEq, Repr

/-- The in-memory cache CACHE: a JS Map is modelled as an insertion-ordered
association list with unique keys. -/
abbrev CacheMap := List (String × CacheEntry)

/-- CACHE_TTL_MS = 5 * 60 * 1000 (5 minutes). -/
def CACHE_TTL_MS : Int := 5 * 60 * 1000

/-- CACHE_MAX_ENTRIES = 200. -/
def CACHE_MAX_ENTRIES : Nat := 200

/-- Model of JS Map.get: first entry with the given key. -/
def mapGet : CacheMap → String → Option CacheEntry
  | [], _ => none
  | kv :: rest, k => if kv.1 = k then some kv.2 else mapGet rest k

/-- Model of JS Map.set: update in place (keeping insertion position) when the
key is present, otherwise append at the end. -/
def mapSet : CacheMap → String → CacheEntry → CacheMap
  | [], k, e => [(k, e)]
  | kv :: rest, k, e => if kv.1 = k then (k, e) :: rest else kv :: mapSet rest k e

/-- Model of JS Map.delete: remove the entry with the given key. -/
def mapDelete : CacheMap → String → CacheMap
  | [], _ => []
  | kv :: rest, k => if kv.1 = k then rest else kv :: mapDelete rest k

/-- Embedding of getCache: absent gives null; an expired hit is deleted as part
of the lookup and reported absent; otherwise the stored value is returned.
The current time Date.now() is passed explicitly, and the possibly mutated
CACHE is returned alongside the result. -/
def getCache (now : Int) (m : CacheMap) (key : String) :
    Option (List SunbizResult) × CacheMap :=
  match mapGet m key with
  | none => (none, m)
  | some hit => if now > hit.expiresAt then (none, mapDelete m key) else (some hit.value, m)

/-- Embedding of setCache: when the map is at or above CACHE_MAX_ENTRIES the
oldest (first-inserted) key is deleted, but only when that key is truthy in JS,
i.e. not the empty string (the source guard is if (oldestKey)); then the new
entry is inserted with expiresAt = now + CACHE_TTL_MS. -/
def setCache (now : Int) (m : CacheMap) (key : String) (value : List SunbizResult) :
    CacheMap :=
  let m1 :=
    if m.length ≥ CACHE_MAX_ENTRIES then
      match m.head? with
      | some kv => if kv.1 = "" then m else mapDelete m kv.1
      | none => m
    else m
  mapSet m1 key ⟨value, now + CACHE_TTL_MS⟩

/-- ASCII lowercase of one character, as in JS toLowerCase on ASCII input. -/
def charLower (c : Char) : Char :=
  if 65 ≤ c.toNat ∧ c.toNat ≤ 90 then Char.ofNat (c.toNat + 32) else c

/-- Model of String.prototype.toLowerCase restricted to ASCII case mapping. -/
def strLower (s : String) : String := ⟨s.data.map charLower⟩

/-- JS whitespace test for trim, restricted to the common ASCII whitespace. -/
def isWsp (c : Char) : Bool := c == ' ' || c == '\t' || c == '\n' || c == '\r'

/-- Model of String.prototype.trim: strip leading and trailing whitespace. -/
def strTrim (s : String) : String :=
  ⟨((s.data.dropWhile isWsp).reverse.dropWhile isWsp).reverse⟩

/-- Embedding of normalizeQuery: q.trim().toLowerCase(). -/
def normalizeQuery (q : String) : String := strLower (strTrim q)

/-! ### Parsed-document model

cheerio.load never throws: any markup string yields a document. The parsed
document is modelled structurally: the nodes matched by the selector
"table tbody tr" (each with its td cells, each cell with its descendant
anchors in document order), plus the list of all anchors of the document
(used by the fallback selector). The href attribute of an anchor is an
Option String (absent attribute = none; an empty attribute is some ""). -/

/-- An anchor element: visible text and optional href attribute. -/
structure Anchor where
  text : String
  href : Option String
deriving DecidableEq, Repr

/-- A td cell: its full visible text and its descendant anchors in order. -/
structure Cell where
  text : String
  anchors : List Anchor
deriving DecidableEq, Repr

/-- A tr row matched by "table tbody tr": its td cells in order. -/
structure Row where
  cells : List Cell
deriving DecidableEq, Repr

/-- A loaded document: the rows matched by "table tbody tr" and all anchors of
the document (the fallback selector filters the latter by href content). -/
structure Doc where
  rows : List Row
  anchors : List Anchor
deriving DecidableEq, Repr

/-- Whether the character list pat occurs at the head of s. -/
def leadMatch : List Char → List Char → Bool
  | _, [] => true
  | [], _ :: _ => false
  | c :: cs, p :: ps => c == p && leadMatch cs ps

/-- Whether the character list pat occurs anywhere in s. -/
def subMatch (pat : List Char) : List Char → Bool
  | [] => pat.isEmpty
  | c :: cs => leadMatch (c :: cs) pat || subMatch pat cs

/-- Substring test: whether pat occurs in s. -/
def containsSub (s pat : String) : Bool := subMatch pat.data s.data

/-- Model of the case-insensitive regex test
/active|inactive|inact|in active|status/i.test(txt): true when any of the five
alternatives occurs in the lowercased text. -/
def statusLike (txt : String) : Bool :=
  let t := strLower txt
  containsSub t "active" || containsSub t "inactive" || containsSub t "inact" ||
    containsSub t "in active" || containsSub t "status"

/-- The status-scan loop of parseSunbiz: the first cell whose trimmed text
matches the status pattern supplies the status. -/
def findStatus : List Cell → Option String
  | [] => none
  | c :: rest =>
    let txt := strTrim c.text
    if statusLike txt then some txt else findStatus rest

/-- The host characters WHATWG parsing sees after a special scheme: the
special authority ignore slashes state first skips any extra slashes or
backslashes after the scheme, and the host then runs to the next slash,
backslash, query or fragment delimiter. -/
def urlHostPart (rest : List Char) : List Char :=
  (rest.dropWhile (fun c => c == '/' || c == '\\')).takeWhile
    (fun c => c != '/' && c != '\\' && c != '?' && c != '#')

/-- Model of the JS WHATWG builtin new URL(href, base).toString(), restricted
to the href shapes this code feeds it: a path-absolute href resolves to
base ++ href; an http(s) href whose host part (after skipping any extra
slashes following the scheme, as WHATWG does for special schemes) is nonempty
passes through; an http(s) href whose host part is empty, such as http://
alone, makes the builtin throw TypeError (modelled as none); and any other
href resolves as a relative path. Percent encoding, host validation beyond
nonemptiness, and the normalization performed by toString are not modelled;
no theorem below depends on them. -/
def newURL (href base : String) : Option String :=
  if leadMatch href.data "http://".data then
    if urlHostPart (href.data.drop 7) ≠ [] then some href else none
  else if leadMatch href.data "https://".data then
    if urlHostPart (href.data.drop 8) ≠ [] then some href else none
  else if leadMatch href.data "/".data then some (base ++ href)
  else some (base ++ "/" ++ href)

/-- The registry base address used by the handler. -/
def baseUrl : String := "https://search.sunbiz.org"

/-- The documentNumber expression: the trimmed text of the second cell when the
cell exists, with an empty trimmed text made undefined by the trailing
|| undefined. -/
def docNumberOf (cells : List Cell) : Option String :=
  match cells[1]? with
  | some c => let t := strTrim c.text; if t = "" then none else some t
  | none => none

/-- The per-row body of the parseSunbiz table loop. A row with no cells, or
whose first-cell first-anchor text trims to empty, is skipped (ok none).
When the anchor has a truthy href, new URL(href, baseUrl) is evaluated and
its TypeError propagates (error). -/
def parseRow (base : String) (row : Row) : Except String (Option SunbizResult) :=
  match row.cells with
  | [] => Except.ok none
  | c0 :: rest =>
    let anch := c0.anchors.head?
    let name := strTrim ((anch.map Anchor.text).getD "")
    if name = "" then Except.ok none
    else
      let href := anch.bind Anchor.href
      let documentNumber := docNumberOf (c0 :: rest)
      let status := findStatus (c0 :: rest)
      match href with
      | none => Except.ok (some ⟨name, status, documentNumber, none⟩)
      | some h =>
        if h = "" then Except.ok (some ⟨name, status, documentNumber, none⟩)
        else
          match newURL h base with
          | some u => Except.ok (some ⟨name, status, documentNumber, some u⟩)
          | none => Except.error "Invalid URL"

/-- The parseSunbiz table loop over all matched rows, in document order. -/
def parseRows (base : String) : List Row → Except String (List SunbizResult)
  | [] => Except.ok []
  | r :: rs => do
    let first ← parseRow base r
    let rest ← parseRows base rs
    match first with
    | none => Except.ok rest
    | some x => Except.ok (x :: rest)

/-- The anchors matched by the fallback selector
a[href*="SearchResultDetail"]: anchors whose href attribute is present and
contains the marker string. -/
def detailAnchors (doc : Doc) : List Anchor :=
  doc.anchors.filter (fun a =>
    match a.href with
    | some h => containsSub h "SearchResultDetail"
    | none => false)

/-- The fallback loop of parseSunbiz: each matched anchor with a truthy name
and href yields a record with only name and resolved url;
new URL(href, baseUrl) may throw. -/
def parseFallback (base : String) : List Anchor → Except String (List SunbizResult)
  | [] => Except.ok []
  | a :: rest =>
    let name := strTrim a.text
    match a.href with
    | some h =>
      if name ≠ "" ∧ h ≠ "" then
        match newURL h base with
        | some u => do
          let xs ← parseFallback base rest
          Except.ok (⟨name, none, none, some u⟩ :: xs)
        | none => Except.error "Invalid URL"
      else parseFallback base rest
    | none => parseFallback base rest

/-- Embedding of parseSunbiz: parse the table rows; when that yields zero
records, run the fallback anchor scan. A TypeError thrown by new URL
propagates out (the source has no try/catch inside parseSunbiz). -/
def parseSunbiz (doc : Doc) (base : String) : Except String (List SunbizResult) := do
  let results ← parseRows base doc.rows
  if results.length = 0 then parseFallback base (detailAnchors doc)
  else Except.ok results

/-! ### JS number model for the limit computation

The handler computes
Math.max(1, Math.min(10, Number(searchParams.get("limit") || 7))).
JS numbers are modelled restricted to the values this expression can take:
NaN or an integer (non-integral numeric literals are outside the modelled
fragment and are mapped to nan; no theorem below depends on them). -/

/-- A JS number restricted to NaN and integral values. -/
inductive JSNum where
  | nan : JSNum
  | int : Int → JSNum
deriving DecidableEq, Repr

/-- Model of Math.min on two arguments: NaN propagates. -/
def jsMin : JSNum → JSNum → JSNum
  | JSNum.nan, _ => JSNum.nan
  | _, JSNum.nan => JSNum.nan
  | JSNum.int a, JSNum.int b => JSNum.int (min a b)

/-- Model of Math.max on two arguments: NaN propagates. -/
def jsMax : JSNum → JSNum → JSNum
  | JSNum.nan, _ => JSNum.nan
  | _, JSNum.nan => JSNum.nan
  | JSNum.int a, JSNum.int b => JSNum.int (max a b)

/-- Decimal value of a nonempty all-digit character list, else none. -/
def digitsVal (acc : Nat) : List Char → Option Nat
  | [] => some acc
  | c :: cs => if c.isDigit then digitsVal (acc * 10 + (c.toNat - 48)) cs else none

/-- Model of Number(s) on a string, restricted to the integral fragment:
whitespace is trimmed, the empty remainder is 0, an optionally signed decimal
numeral is its value, and anything else is NaN. -/
def jsParseNumber (s : String) : JSNum :=
  match (strTrim s).data with
  | [] => JSNum.int 0
  | '-' :: rest =>
    match rest with
    | [] => JSNum.nan
    | _ =>
      match digitsVal 0 rest with
      | some n => JSNum.int (-(n : Int))
      | none => JSNum.nan
  | '+' :: rest =>
    match rest with
    | [] => JSNum.nan
    | _ =>
      match digitsVal 0 rest with
      | some n => JSNum.int n
      | none => JSNum.nan
  | l =>
    match digitsVal 0 l with
    | some n => JSNum.int n
    | none => JSNum.nan

/-- The expression searchParams.get("limit") || 7 followed by Number: a null
or empty-string (falsy) raw limit gives 7, any other string is parsed. -/
def rawLimitToNumber : Option String → JSNum
  | none => JSNum.int 7
  | some s => if s = "" then JSNum.int 7 else jsParseNumber s

/-- Effective limit of the handler:
Math.max(1, Math.min(10, Number(searchParams.get("limit") || 7))). -/
def effectiveLimit (raw : Option String) : JSNum :=
  jsMax (JSNum.int 1) (jsMin (JSNum.int 10) (rawLimitToNumber raw))

/-- Model of JS number-to-string coercion in the template literal. -/
def jsNumToString : JSNum → String
  | JSNum.nan => "NaN"
  | JSNum.int n => toString n

/-- Model of arr.slice(0, lim): a NaN end index converts to 0; a negative end
index counts from the end of the array. -/
def jsSlice (l : List SunbizResult) : JSNum → List SunbizResult
  | JSNum.nan => []
  | JSNum.int n => if n < 0 then l.take ((l.length : Int) + n).toNat else l.take n.toNat

/-! ### Handler model

The outbound fetch is external input, passed as an outcome: the response was
ok with a body parsing to a document (cheerio.load is total), or had a
non-success status, or the fetch itself threw. The handler result records
the JSON response, the CACHE after the call, and whether a fetch was issued. -/

/-- Outcome of the single outbound fetch. -/
inductive FetchOutcome where
  | success : Doc → FetchOutcome
  | httpError : Nat → FetchOutcome
  | netError : FetchOutcome
deriving DecidableEq, Repr

/-- The JSON responses the route can produce. -/
inductive JsonResponse where
  | ok : List SunbizResult → Option Bool → JsonResponse
  | validationError : JsonResponse
  | upstreamError : Nat → JsonResponse
  | unexpectedError : JsonResponse
deriving DecidableEq, Repr

/-- Observable result of one GET call. -/
structure GETResult where
  response : JsonResponse
  cache : CacheMap
  fetched : Bool
deriving DecidableEq, Repr

/-- The cache key of line 140: normalized query, a colon, and the stringified
limit. -/
def cacheKeyOf (q : String) (raw : Option String) : String :=
  normalizeQuery q ++ ":" ++ jsNumToString (effectiveLimit raw)

/-- The miss path of the handler, lines 146-171: the fetch is issued (so
fetched is true in every branch); a thrown fetch gives the generic 500, a
non-ok response the 502 with the upstream status; otherwise the body is
parsed, the sliced results are cached, and the response carries them with no
fromCache field. A TypeError from new URL inside parseSunbiz is caught by
the outermost try and surfaces as the generic 500 response. -/
def handleMiss (q : String) (rawLimit : Option String) (cache1 : CacheMap) (now : Int) :
    FetchOutcome → GETResult
  | FetchOutcome.netError => ⟨JsonResponse.unexpectedError, cache1, true⟩
  | FetchOutcome.httpError status => ⟨JsonResponse.upstreamError status, cache1, true⟩
  | FetchOutcome.success doc =>
    match parseSunbiz doc baseUrl with
    | Except.error _ => ⟨JsonResponse.unexpectedError, cache1, true⟩
    | Except.ok parsed =>
      ⟨JsonResponse.ok (jsSlice parsed (effectiveLimit rawLimit)) none,
        setCache now cache1 (cacheKeyOf q rawLimit) (jsSlice parsed (effectiveLimit rawLimit)),
        true⟩

/-- Embedding of the GET route handler: parse the limit, validate the
normalized query, consult the cache (a hit responds with the sliced cached
value and fromCache true), and on a miss run the miss path. -/
def handleGET (q : String) (rawLimit : Option String) (fetch : FetchOutcome)
    (cache : CacheMap) (now : Int) : GETResult :=
  if (normalizeQuery q).length < 2 then
    ⟨JsonResponse.validationError, cache, false⟩
  else
    match getCache now cache (cacheKeyOf q rawLimit) with
    | (some cached, cache1) =>
      ⟨JsonResponse.ok (jsSlice cached (effectiveLimit rawLimit)) (some true), cache1, false⟩
    | (none, cache1) => handleMiss q rawLimit cache1 now fetch

instance exceptDecEq {ε α : Type} [DecidableEq ε] [DecidableEq α] :
    DecidableEq (Except ε α)
  | Except.ok a, Except.ok b =>
    if h : a = b then isTrue (by rw [h]) else isFalse (fun hh => h (Except.ok.inj hh))
  | Except.ok _, Except.error _ => isFalse (fun hh => Except.noConfusion hh)
  | Except.error _, Except.ok _ => isFalse (fun hh => Except.noConfusion hh)
  | Except.error e, Except.error f =>
    if h : e = f then isTrue (by rw [h]) else isFalse (fun hh => h (Except.error.inj hh))

/-! ### Concrete documents used by the claim theorems -/

/-- The table row of the end-to-end example: first cell holds the name
anchor with a relative detail href, second cell the document number, third
cell the status text. -/
def teslaRow : Row :=
  ⟨[⟨"TESLA LLC",
      [⟨"TESLA LLC", some "/Inquiry/CorporationSearch/SearchResultDetail?inquirytype=EntityName"⟩]⟩,
    ⟨"P12000012345", []⟩, ⟨"ACTIVE", []⟩]⟩

/-- The record the example row extracts to. -/
def teslaRecord : SunbizResult :=
  ⟨"TESLA LLC", some "ACTIVE", some "P12000012345",
    some "https://search.sunbiz.org/Inquiry/CorporationSearch/SearchResultDetail?inquirytype=EntityName"⟩

/-- A document containing just the example row. -/
def docTesla : Doc := ⟨[teslaRow], []⟩

/-- The example document extended with a row with no cells and a row whose
extracted name trims to empty: both must be skipped. -/
def docTeslaExtra : Doc :=
  ⟨[teslaRow, ⟨[]⟩, ⟨[⟨" ", [⟨"  ", some "/x"⟩]⟩]⟩], []⟩

/-- A document with one table row whose name anchor carries the unresolvable
href "http://" (empty authority): new URL throws on it. -/
def badHrefDoc : Doc := ⟨[⟨[⟨"X", [⟨"X", some "http://"⟩]⟩]⟩], []⟩

/-- A two-record document: two rows with plain names and no hrefs. -/
def twoRowDoc : Doc :=
  ⟨[⟨[⟨"AA", [⟨"AA", none⟩]⟩]⟩, ⟨[⟨"BB", [⟨"BB", none⟩]⟩]⟩], []⟩

/-- The first record of twoRowDoc. -/
def recAA : SunbizResult := ⟨"AA", none, none, none⟩

/-- The second record of twoRowDoc. -/
def recBB : SunbizResult := ⟨"BB", none, none, none⟩

/-- An empty results page: no rows, no anchors; the extractor yields zero
records. -/
def emptyDoc : Doc := ⟨[], []⟩

/-! ### Claim theorems: extractor -/

/-- Claim C1 (code_bug evidence): the extractor is claimed never to raise,
even for rows whose anchor href cannot be resolved to a URL; the code instead
lets the TypeError of new URL propagate out of parseSunbiz for a table row
whose name-anchor href is http:// (empty host), and the handler surfaces it
as the generic 500 response rather than an empty result sequence. -/
theorem C1_extractor_raises :
    parseSunbiz badHrefDoc baseUrl = Except.error "Invalid URL" ∧
    (handleGET "ab" none (FetchOutcome.success badHrefDoc) [] 0).response
      = JsonResponse.unexpectedError := by
  decide

/-- Claim C2 (code_bug evidence): the limit is claimed to default to 7 when
unparsable, but Number of a non-empty unparsable string is NaN and NaN passes
through Math.min and Math.max unchanged, so the effective limit for "abc" is
NaN, not 7 and not in [1, 10]; downstream the NaN slice end makes the handler
respond with an empty results list. The absent, 0 and 15 cases do behave as
claimed. -/
theorem C2_limit_nan :
    effectiveLimit (some "abc") = JSNum.nan ∧
    effectiveLimit none = JSNum.int 7 ∧
    effectiveLimit (some "") = JSNum.int 7 ∧
    effectiveLimit (some "0") = JSNum.int 1 ∧
    effectiveLimit (some "15") = JSNum.int 10 ∧
    (handleGET "ab" (some "abc") (FetchOutcome.success docTesla) [] 0).response
      = JsonResponse.ok [] none := by
  decide

/-- Claim C9: the end-to-end example row extracts to exactly one record with
the name, document number, status and absolute detail url; a row with no
cells, or whose extracted name is empty after trimming, is silently
skipped. -/
theorem C9_example :
    parseSunbiz docTesla baseUrl = Except.ok [teslaRecord] ∧
    parseSunbiz docTeslaExtra baseUrl = Except.ok [teslaRecord] := by
  decide

/-! ### Map and cache lemmas -/

theorem mapGet_mapSet_self (m : CacheMap) (k : String) (e : CacheEntry) :
    mapGet (mapSet m k e) k = some e := by
  induction m with
  | nil => simp [mapSet, mapGet]
  | cons kv rest ih =>
    by_cases h : kv.1 = k
    · simp [mapSet, h, mapGet]
    · simp [mapSet, h, mapGet, ih]

theorem mapGet_mapSet_ne (m : CacheMap) (k k' : String) (e : CacheEntry) (h : k' ≠ k) :
    mapGet (mapSet m k e) k' = mapGet m k' := by
  induction m with
  | nil => simp [mapSet, mapGet, Ne.symm h]
  | cons kv rest ih =>
    by_cases hk : kv.1 = k
    · subst hk
      simp [mapSet, mapGet, Ne.symm h]
    · simp [mapSet, hk, mapGet, ih]

theorem mapGet_eq_none_of_not_mem (m : CacheMap) (k : String)
    (h : k ∉ m.map Prod.fst) : mapGet m k = none := by
  induction m with
  | nil => simp [mapGet]
  | cons kv rest ih =>
    simp only [List.map_cons, List.mem_cons] at h
    push_neg at h
    simp [mapGet, Ne.symm h.1, ih h.2]

theorem mapGet_mapDelete_ne (m : CacheMap) (k k' : String) (h : k' ≠ k) :
    mapGet (mapDelete m k) k' = mapGet m k' := by
  induction m with
  | nil => simp [mapDelete]
  | cons kv rest ih =>
    by_cases hk : kv.1 = k
    · subst hk
      simp [mapDelete, mapGet, Ne.symm h]
    · simp [mapDelete, hk, mapGet, ih]

theorem mapGet_mapDelete_self (m : CacheMap) (k : String)
    (h : (m.map Prod.fst).Nodup) : mapGet (mapDelete m k) k = none := by
  induction m with
  | nil => simp [mapDelete, mapGet]
  | cons kv rest ih =>
    simp only [List.map_cons, List.nodup_cons] at h
    by_cases hk : kv.1 = k
    · subst hk
      simp only [mapDelete, if_pos rfl]
      exact mapGet_eq_none_of_not_mem rest kv.1 h.1
    · simp [mapDelete, hk, mapGet, ih h.2]

theorem mapSet_of_mapGet_none (m : CacheMap) (k : String) (e : CacheEntry)
    (h : mapGet m k = none) : mapSet m k e = m ++ [(k, e)] := by
  induction m with
  | nil => simp [mapSet]
  | cons kv rest ih =>
    by_cases hk : kv.1 = k
    · simp [mapGet, hk] at h
    · simp only [mapGet, if_neg hk] at h
      simp [mapSet, hk, ih h]

theorem getCache_of_none (now : Int) (m : CacheMap) (k : String)
    (h : mapGet m k = none) : getCache now m k = (none, m) := by
  unfold getCache
  rw [h]

theorem getCache_of_live (now : Int) (m : CacheMap) (k : String) (e : CacheEntry)
    (h : mapGet m k = some e) (ht : ¬ now > e.expiresAt) :
    getCache now m k = (some e.value, m) := by
  unfold getCache
  rw [h]
  exact if_neg ht

theorem getCache_of_expired (now : Int) (m : CacheMap) (k : String) (e : CacheEntry)
    (h : mapGet m k = some e) (ht : now > e.expiresAt) :
    getCache now m k = (none, mapDelete m k) := by
  unfold getCache
  rw [h]
  exact if_pos ht

theorem getCache_fst_some (now : Int) (m : CacheMap) (k : String)
    (v : List SunbizResult) (c1 : CacheMap)
    (h : getCache now m k = (some v, c1)) :
    ∃ e, mapGet m k = some e ∧ e.value = v ∧ ¬ now > e.expiresAt ∧ c1 = m := by
  unfold getCache at h
  cases hm : mapGet m k with
  | none =>
    rw [hm] at h
    exact Option.noConfusion (congrArg Prod.fst h)
  | some e =>
    rw [hm] at h
    replace h : (if now > e.expiresAt then ((none : Option (List SunbizResult)), mapDelete m k)
        else (some e.value, m)) = (some v, c1) := h
    by_cases ht : now > e.expiresAt
    · rw [if_pos ht] at h
      exact Option.noConfusion (congrArg Prod.fst h)
    · rw [if_neg ht] at h
      exact ⟨e, rfl, Option.some.inj (congrArg Prod.fst h), ht,
        (congrArg Prod.snd h).symm⟩

theorem mapGet_setCache_self (now : Int) (m : CacheMap) (k : String)
    (v : List SunbizResult) :
    mapGet (setCache now m k v) k = some ⟨v, now + CACHE_TTL_MS⟩ := by
  unfold setCache
  exact mapGet_mapSet_self _ _ _

/-! ### Handler path lemmas -/

theorem handleGET_validation (q : String) (raw : Option String) (f : FetchOutcome)
    (m : CacheMap) (t : Int) (h : (normalizeQuery q).length < 2) :
    handleGET q raw f m t = ⟨JsonResponse.validationError, m, false⟩ := by
  unfold handleGET
  rw [if_pos h]

theorem handleGET_hit (q : String) (raw : Option String) (f : FetchOutcome)
    (m : CacheMap) (t : Int) (v : List SunbizResult) (c1 : CacheMap)
    (hq : ¬ (normalizeQuery q).length < 2)
    (hhit : getCache t m (cacheKeyOf q raw) = (some v, c1)) :
    handleGET q raw f m t =
      ⟨JsonResponse.ok (jsSlice v (effectiveLimit raw)) (some true), c1, false⟩ := by
  unfold handleGET
  rw [if_neg hq, hhit]

theorem handleGET_miss (q : String) (raw : Option String) (f : FetchOutcome)
    (m : CacheMap) (t : Int) (c1 : CacheMap)
    (hq : ¬ (normalizeQuery q).length < 2)
    (hmiss : getCache t m (cacheKeyOf q raw) = (none, c1)) :
    handleGET q raw f m t = handleMiss q raw c1 t f := by
  unfold handleGET
  rw [if_neg hq, hmiss]

theorem handleMiss_success (q : String) (raw : Option String) (c1 : CacheMap)
    (t : Int) (doc : Doc) (parsed : List SunbizResult)
    (hparse : parseSunbiz doc baseUrl = Except.ok parsed) :
    handleMiss q raw c1 t (FetchOutcome.success doc) =
      ⟨JsonResponse.ok (jsSlice parsed (effectiveLimit raw)) none,
        setCache t c1 (cacheKeyOf q raw) (jsSlice parsed (effectiveLimit raw)), true⟩ := by
  show (match parseSunbiz doc baseUrl with
    | Except.error _ => (⟨JsonResponse.unexpectedError, c1, true⟩ : GETResult)
    | Except.ok p =>
      ⟨JsonResponse.ok (jsSlice p (effectiveLimit raw)) none,
        setCache t c1 (cacheKeyOf q raw) (jsSlice p (effectiveLimit raw)), true⟩) = _
  rw [hparse]

/-! ### Claim theorems: handler validation and cache semantics -/

/-- Claim C5: for every raw query whose trimmed lowercased form has length
less than 2, the handler responds with the validation error, performs no
outbound fetch, and leaves the cache untouched. -/
theorem C5_validation (q : String) (raw : Option String) (f : FetchOutcome)
    (m : CacheMap) (t : Int) (h : (normalizeQuery q).length < 2) :
    handleGET q raw f m t = ⟨JsonResponse.validationError, m, false⟩ :=
  handleGET_validation q raw f m t h

/-- Witness for C5 at the concrete query "a". -/
theorem C5_validation_witness :
    (normalizeQuery "a").length < 2 ∧
    handleGET "a" none FetchOutcome.netError [] 0 =
      ⟨JsonResponse.validationError, [], false⟩ :=
  ⟨by decide, C5_validation "a" none FetchOutcome.netError [] 0 (by decide)⟩

/-- Claim C6: getCache returns the stored value exactly when the current time
is at most the expiry time; an expired entry is deleted as part of the lookup
and reported absent; consequently an entry inserted at time T (expiry
T + CACHE_TTL_MS) is retrievable at any time up to T + CACHE_TTL_MS and not
retrievable after it. -/
theorem C6_expiry (m : CacheMap) (key : String) (e : CacheEntry)
    (v : List SunbizResult) (T t now : Int) :
    (mapGet m key = some e → ¬ now ≤ e.expiresAt →
      getCache now m key = (none, mapDelete m key)) ∧
    (mapGet m key = some e → now ≤ e.expiresAt →
      getCache now m key = (some e.value, m)) ∧
    (t ≤ T + CACHE_TTL_MS → (getCache t (setCache T m key v) key).1 = some v) ∧
    (T + CACHE_TTL_MS < t → (getCache t (setCache T m key v) key).1 = none) := by
  refine ⟨?_, ?_, ?_, ?_⟩
  · intro h ht
    exact getCache_of_expired now m key e h (not_le.mp ht)
  · intro h ht
    exact getCache_of_live now m key e h (not_lt.mpr ht)
  · intro ht
    rw [getCache_of_live t (setCache T m key v) key ⟨v, T + CACHE_TTL_MS⟩
      (mapGet_setCache_self T m key v) (not_lt.mpr ht)]
  · intro ht
    rw [getCache_of_expired t (setCache T m key v) key ⟨v, T + CACHE_TTL_MS⟩
      (mapGet_setCache_self T m key v) ht]

/-- Witness for C6: a live lookup at the expiry instant, an expired lookup
just after, and retrieval around the TTL boundary for a fresh insert. -/
theorem C6_expiry_witness :
    getCache 6 [("k", ⟨[], 5⟩)] "k" = (none, mapDelete [("k", ⟨[], 5⟩)] "k") ∧
    getCache 5 [("k", ⟨[], 5⟩)] "k" = (some [], [("k", ⟨[], 5⟩)]) ∧
    (getCache 300000 (setCache 0 [] "k" []) "k").1 = some [] ∧
    (getCache 300001 (setCache 0 [] "k" []) "k").1 = none :=
  ⟨(C6_expiry [("k", ⟨[], 5⟩)] "k" ⟨[], 5⟩ [] 0 0 6).1 (by decide) (by decide),
    (C6_expiry [("k", ⟨[], 5⟩)] "k" ⟨[], 5⟩ [] 0 0 5).2.1 (by decide) (by decide),
    (C6_expiry [] "k" ⟨[], 5⟩ [] 0 300000 0).2.2.1 (by decide),
    (C6_expiry [] "k" ⟨[], 5⟩ [] 0 300001 0).2.2.2 (by decide)⟩

theorem jsSlice_nil (lim : JSNum) : jsSlice [] lim = [] := by
  cases lim <;> simp [jsSlice]

/-! ### Claim theorems: miss path, caching and idempotence -/

/-- Counterexample to claim C3 as stated: after a miss with a two-record
extraction and limit 1, the cache holds only the first record (the slice the
handler returned), not the full extracted sequence. -/
theorem C3_counterexample :
    parseSunbiz twoRowDoc baseUrl = Except.ok [recAA, recBB] ∧
    mapGet (handleGET "qq" (some "1") (FetchOutcome.success twoRowDoc) [] 0).cache "qq:1"
      = some ⟨[recAA], CACHE_TTL_MS⟩ ∧
    [recAA] ≠ [recAA, recBB] := by
  decide

/-- Claim C3 as amended: on a miss followed by a successful fetch whose body
parses without throwing, the handler stores under the key
normalizedQuery:limit the first limit extracted records (the same slice it
returns), not the full extracted sequence, with expiry now + CACHE_TTL_MS. -/
theorem C3_amended (q : String) (raw : Option String) (doc : Doc) (m c1 : CacheMap)
    (t : Int) (parsed : List SunbizResult)
    (hq : ¬ (normalizeQuery q).length < 2)
    (hmiss : getCache t m (cacheKeyOf q raw) = (none, c1))
    (hparse : parseSunbiz doc baseUrl = Except.ok parsed) :
    mapGet (handleGET q raw (FetchOutcome.success doc) m t).cache (cacheKeyOf q raw)
      = some ⟨jsSlice parsed (effectiveLimit raw), t + CACHE_TTL_MS⟩ := by
  rw [handleGET_miss q raw (FetchOutcome.success doc) m t c1 hq hmiss,
    handleMiss_success q raw c1 t doc parsed hparse]
  exact mapGet_setCache_self t c1 (cacheKeyOf q raw) _

/-- Witness for C3 as amended at the concrete two-record document. -/
theorem C3_amended_witness :
    mapGet (handleGET "qq" (some "1") (FetchOutcome.success twoRowDoc) [] 0).cache
        (cacheKeyOf "qq" (some "1"))
      = some ⟨jsSlice [recAA, recBB] (effectiveLimit (some "1")), 0 + CACHE_TTL_MS⟩ :=
  C3_amended "qq" (some "1") twoRowDoc [] [] 0 [recAA, recBB]
    (by decide) (by decide) (by decide)

/-- Counterexample to claim C8 as stated: the miss-path success response
carries no fromCache field at all (the source returns the bare object
with only results), rather than fromCache = false. -/
theorem C8_counterexample :
    (handleGET "qq" (some "1") (FetchOutcome.success twoRowDoc) [] 0).response
      = JsonResponse.ok [recAA] none ∧
    JsonResponse.ok [recAA] none ≠ JsonResponse.ok [recAA] (some false) := by
  decide

/-- Claim C8 as amended: on a miss followed by a successful fetch whose body
parses without throwing, the response carries the first limit extracted
records and omits the fromCache field (absent, not false). -/
theorem C8_amended (q : String) (raw : Option String) (doc : Doc) (m c1 : CacheMap)
    (t : Int) (parsed : List SunbizResult)
    (hq : ¬ (normalizeQuery q).length < 2)
    (hmiss : getCache t m (cacheKeyOf q raw) = (none, c1))
    (hparse : parseSunbiz doc baseUrl = Except.ok parsed) :
    (handleGET q raw (FetchOutcome.success doc) m t).response
      = JsonResponse.ok (jsSlice parsed (effectiveLimit raw)) none := by
  rw [handleGET_miss q raw (FetchOutcome.success doc) m t c1 hq hmiss,
    handleMiss_success q raw c1 t doc parsed hparse]

/-- Witness for C8 as amended at the concrete two-record document. -/
theorem C8_amended_witness :
    (handleGET "qq" (some "1") (FetchOutcome.success twoRowDoc) [] 0).response
      = JsonResponse.ok (jsSlice [recAA, recBB] (effectiveLimit (some "1"))) none :=
  C8_amended "qq" (some "1") twoRowDoc [] [] 0 [recAA, recBB]
    (by decide) (by decide) (by decide)

/-- Claim C10: when a successful fetch yields zero extracted records the
empty sequence is cached under the key, and a second identical call within
the TTL is a cache hit (the stored empty sequence counts as present, since
an empty array is truthy in JS) returning empty results tagged
fromCache = true with no outbound fetch and no cache change. -/
theorem C10_empty_cached (q : String) (raw : Option String) (doc : Doc) (m c1 : CacheMap)
    (t t' : Int) (f2 : FetchOutcome)
    (hq : ¬ (normalizeQuery q).length < 2)
    (hmiss : getCache t m (cacheKeyOf q raw) = (none, c1))
    (hparse : parseSunbiz doc baseUrl = Except.ok [])
    (ht : t' ≤ t + CACHE_TTL_MS) :
    mapGet (handleGET q raw (FetchOutcome.success doc) m t).cache (cacheKeyOf q raw)
      = some ⟨[], t + CACHE_TTL_MS⟩ ∧
    handleGET q raw f2 (handleGET q raw (FetchOutcome.success doc) m t).cache t'
      = ⟨JsonResponse.ok [] (some true),
        (handleGET q raw (FetchOutcome.success doc) m t).cache, false⟩ := by
  have h1 := handleGET_miss q raw (FetchOutcome.success doc) m t c1 hq hmiss
  have h2 := handleMiss_success q raw c1 t doc [] hparse
  have hsl : jsSlice [] (effectiveLimit raw) = [] := jsSlice_nil _
  rw [h1, h2, hsl]
  have hget := getCache_of_live t' (setCache t c1 (cacheKeyOf q raw) []) (cacheKeyOf q raw)
    ⟨[], t + CACHE_TTL_MS⟩ (mapGet_setCache_self t c1 (cacheKeyOf q raw) []) (not_lt.mpr ht)
  exact ⟨mapGet_setCache_self t c1 (cacheKeyOf q raw) [],
    by rw [handleGET_hit q raw f2 _ t' [] _ hq hget, hsl]⟩

/-- Witness for C10 at an empty results page. -/
theorem C10_empty_cached_witness :
    mapGet (handleGET "ab" none (FetchOutcome.success emptyDoc) [] 0).cache
        (cacheKeyOf "ab" none) = some ⟨[], 0 + CACHE_TTL_MS⟩ ∧
    handleGET "ab" none FetchOutcome.netError
        (handleGET "ab" none (FetchOutcome.success emptyDoc) [] 0).cache 1
      = ⟨JsonResponse.ok [] (some true),
        (handleGET "ab" none (FetchOutcome.success emptyDoc) [] 0).cache, false⟩ :=
  C10_empty_cached "ab" none emptyDoc [] [] 0 1 FetchOutcome.netError
    (by decide) (by decide) (by decide) (by decide)

/-- Counterexample to claim C4 as stated: when the single outbound fetch does
not succeed (upstream 503), nothing is cached, so two immediate identical
calls both perform an outbound fetch (two fetches, not at most one) and the
second call is an upstream error, not a cache hit. -/
theorem C4_counterexample :
    (handleGET "ab" none (FetchOutcome.httpError 503) [] 0).fetched = true ∧
    (handleGET "ab" none (FetchOutcome.httpError 503)
        (handleGET "ab" none (FetchOutcome.httpError 503) [] 0).cache 0).fetched = true ∧
    (handleGET "ab" none (FetchOutcome.httpError 503)
        (handleGET "ab" none (FetchOutcome.httpError 503) [] 0).cache 0).response
      = JsonResponse.upstreamError 503 := by
  decide

/-- Claim C4 as amended: for every query of normalized length at least 2 and
every limit, provided the outbound fetch of the first call succeeds and its body
parses without throwing, a second call with the same query and limit within
the TTL (and with no pre-existing entry under the key expiring in between)
performs no outbound fetch, so at most one fetch happens across both calls,
and the second call is a cache hit returning the first limit cached records
tagged fromCache = true. -/
theorem C4_amended (q : String) (raw : Option String) (doc : Doc) (m : CacheMap)
    (t t' : Int) (f2 : FetchOutcome) (parsed : List SunbizResult)
    (hq : ¬ (normalizeQuery q).length < 2)
    (hparse : parseSunbiz doc baseUrl = Except.ok parsed)
    (ht' : t' ≤ t + CACHE_TTL_MS)
    (hnoexp : ∀ e, mapGet m (cacheKeyOf q raw) = some e → t' ≤ e.expiresAt) :
    (handleGET q raw f2 (handleGET q raw (FetchOutcome.success doc) m t).cache t').fetched
      = false ∧
    ((getCache t' (handleGET q raw (FetchOutcome.success doc) m t).cache
        (cacheKeyOf q raw)).1).isSome = true ∧
    (handleGET q raw f2 (handleGET q raw (FetchOutcome.success doc) m t).cache t').response
      = JsonResponse.ok
          (jsSlice (((getCache t' (handleGET q raw (FetchOutcome.success doc) m t).cache
            (cacheKeyOf q raw)).1).getD []) (effectiveLimit raw)) (some true) := by
  rcases h1 : getCache t m (cacheKeyOf q raw) with ⟨o, c1⟩
  cases o with
  | none =>
    rw [handleGET_miss q raw (FetchOutcome.success doc) m t c1 hq h1,
      handleMiss_success q raw c1 t doc parsed hparse]
    have hget := getCache_of_live t'
      (setCache t c1 (cacheKeyOf q raw) (jsSlice parsed (effectiveLimit raw)))
      (cacheKeyOf q raw) ⟨jsSlice parsed (effectiveLimit raw), t + CACHE_TTL_MS⟩
      (mapGet_setCache_self t c1 (cacheKeyOf q raw) _) (not_lt.mpr ht')
    rw [handleGET_hit q raw f2 _ t' _ _ hq hget, hget]
    exact ⟨rfl, rfl, rfl⟩
  | some v =>
    obtain ⟨e, hme, hv, _, hc⟩ := getCache_fst_some t m (cacheKeyOf q raw) v c1 h1
    rw [handleGET_hit q raw (FetchOutcome.success doc) m t v c1 hq h1, hc]
    have hget := getCache_of_live t' m (cacheKeyOf q raw) e hme
      (not_lt.mpr (hnoexp e hme))
    rw [handleGET_hit q raw f2 m t' e.value m hq hget, hget]
    exact ⟨rfl, rfl, rfl⟩

/-- Witness for C4 as amended: first call at time 0 misses and caches the
example record; a second call at time 1 is a hit with no fetch. -/
theorem C4_amended_witness :
    (handleGET "ab" none FetchOutcome.netError
        (handleGET "ab" none (FetchOutcome.success docTesla) [] 0).cache 1).fetched
      = false ∧
    ((getCache 1 (handleGET "ab" none (FetchOutcome.success docTesla) [] 0).cache
        (cacheKeyOf "ab" none)).1).isSome = true ∧
    (handleGET "ab" none FetchOutcome.netError
        (handleGET "ab" none (FetchOutcome.success docTesla) [] 0).cache 1).response
      = JsonResponse.ok
          (jsSlice (((getCache 1 (handleGET "ab" none (FetchOutcome.success docTesla) [] 0).cache
            (cacheKeyOf "ab" none)).1).getD []) (effectiveLimit none)) (some true) :=
  C4_amended "ab" none docTesla [] 0 1 FetchOutcome.netError [teslaRecord]
    (by decide) (by decide) (by decide)
    (fun e h => Option.noConfusion h)

/-! ### Eviction lemmas for claim C7 -/

theorem mapGet_append_none (m1 m2 : CacheMap) (k : String)
    (h : mapGet m1 k = none) : mapGet (m1 ++ m2) k = mapGet m2 k := by
  induction m1 with
  | nil => simp
  | cons kv rest ih =>
    by_cases hk : kv.1 = k
    · simp [mapGet, hk] at h
    · simp only [mapGet, if_neg hk] at h
      simp [mapGet, hk, ih h]

theorem mapGet_append_some (m1 m2 : CacheMap) (k : String) (e : CacheEntry)
    (h : mapGet m1 k = some e) : mapGet (m1 ++ m2) k = some e := by
  induction m1 with
  | nil => simp [mapGet] at h
  | cons kv rest ih =>
    by_cases hk : kv.1 = k
    · simp only [mapGet, if_pos hk] at h
      simp [mapGet, hk, h]
    · simp only [mapGet, if_neg hk] at h
      simp [mapGet, hk, ih h]

/-- The eviction behavior of setCache on a full map whose oldest key is
nonempty and whose keys are distinct and do not contain the inserted key:
the oldest entry is evicted, the new entry appended, the size stays at
capacity, and every other entry is preserved. -/
theorem setCache_at_capacity (m : CacheMap) (k0 : String) (e0 : CacheEntry)
    (k : String) (v : List SunbizResult) (t : Int)
    (hlen : m.length = CACHE_MAX_ENTRIES)
    (hhead : m.head? = some (k0, e0))
    (hk0 : k0 ≠ "")
    (hnd : (m.map Prod.fst).Nodup)
    (hget : mapGet m k = none) :
    (setCache t m k v).length = CACHE_MAX_ENTRIES ∧
    mapGet (setCache t m k v) k0 = none ∧
    mapGet (setCache t m k v) k = some ⟨v, t + CACHE_TTL_MS⟩ ∧
    ∀ k2, k2 ≠ k0 → k2 ≠ k → mapGet (setCache t m k v) k2 = mapGet m k2 := by
  cases m with
  | nil => exact Option.noConfusion hhead
  | cons kv rest =>
    have hkv : kv = (k0, e0) := Option.some.inj hhead
    subst hkv
    have hk0k : ¬ (k0 = k) := by
      intro hh
      rw [mapGet, if_pos hh] at hget
      exact Option.noConfusion hget
    have hrest : mapGet rest k = none := by
      rw [mapGet, if_neg hk0k] at hget
      exact hget
    have hk0rest : k0 ∉ rest.map Prod.fst := by
      have := hnd
      simp only [List.map_cons, List.nodup_cons] at this
      exact this.1
    have hset : setCache t (((k0, e0)) :: rest) k v
        = mapSet (if (((k0, e0)) :: rest).length ≥ CACHE_MAX_ENTRIES then
            (if k0 = "" then ((k0, e0)) :: rest else mapDelete (((k0, e0)) :: rest) k0)
          else ((k0, e0)) :: rest) k ⟨v, t + CACHE_TTL_MS⟩ := rfl
    rw [hset, hlen, if_pos (le_refl CACHE_MAX_ENTRIES), if_neg hk0]
    have hdel : mapDelete (((k0, e0)) :: rest) k0 = rest := by
      simp [mapDelete]
    rw [hdel, mapSet_of_mapGet_none rest k _ hrest]
    have hlrest : rest.length + 1 = CACHE_MAX_ENTRIES := by
      simpa using hlen
    refine ⟨?_, ?_, ?_, ?_⟩
    · simp only [List.length_append, List.length_cons, List.length_nil]
      omega
    · rw [mapGet_append_none rest _ k0 (mapGet_eq_none_of_not_mem rest k0 hk0rest)]
      simp [mapGet, Ne.symm hk0k]
    · rw [mapGet_append_none rest _ k hrest]
      simp [mapGet]
    · intro k2 h2a h2b
      cases hg : mapGet rest k2 with
      | some e =>
        rw [mapGet_append_some rest _ k2 e hg]
        simp [mapGet, Ne.symm h2a, hg]
      | none =>
        rw [mapGet_append_none rest _ k2 hg]
        simp [mapGet, Ne.symm h2a, Ne.symm h2b, hg]

/-- The last n elements of a key list: what survives repeated head
eviction. -/
def lastKeys (n : Nat) (l : List String) : List String := l.drop (l.length - n)

/-- The constant cache entry a bulk insert at time t with value v creates. -/
def entryOf (t : Int) (v : List SunbizResult) (x : String) : String × CacheEntry :=
  (x, ⟨v, t + CACHE_TTL_MS⟩)

theorem mapGet_constmap_none (t : Int) (v : List SunbizResult) (l : List String)
    (k : String) (h : k ∉ l) : mapGet (l.map (entryOf t v)) k = none := by
  induction l with
  | nil => simp [mapGet]
  | cons x xs ih =>
    simp only [List.mem_cons] at h
    push_neg at h
    simp [mapGet, entryOf, Ne.symm h.1, ih h.2]

theorem mapGet_constmap_some (t : Int) (v : List SunbizResult) (l : List String)
    (k : String) (h : k ∈ l) : mapGet (l.map (entryOf t v)) k = some ⟨v, t + CACHE_TTL_MS⟩ := by
  induction l with
  | nil => simp at h
  | cons x xs ih =>
    by_cases hx : x = k
    · simp [mapGet, entryOf, hx]
    · rcases List.mem_cons.mp h with hh | hh
      · exact absurd hh.symm hx
      · simp [mapGet, entryOf, hx, ih hh]

theorem setCache_small (now : Int) (m : CacheMap) (k : String) (v : List SunbizResult)
    (h : m.length < CACHE_MAX_ENTRIES) :
    setCache now m k v = mapSet m k ⟨v, now + CACHE_TTL_MS⟩ := by
  show mapSet (if m.length ≥ CACHE_MAX_ENTRIES then
      (match m.head? with
        | some kv => if kv.1 = "" then m else mapDelete m kv.1
        | none => m) else m) k ⟨v, now + CACHE_TTL_MS⟩ = mapSet m k ⟨v, now + CACHE_TTL_MS⟩
  rw [if_neg (not_le.mpr h)]

theorem setCache_full (now : Int) (m : CacheMap) (k : String) (v : List SunbizResult)
    (k0 : String) (e0 : CacheEntry)
    (hcap : m.length ≥ CACHE_MAX_ENTRIES) (hhead : m.head? = some (k0, e0))
    (hk0 : k0 ≠ "") :
    setCache now m k v = mapSet (mapDelete m k0) k ⟨v, now + CACHE_TTL_MS⟩ := by
  show mapSet (if m.length ≥ CACHE_MAX_ENTRIES then
      (match m.head? with
        | some kv => if kv.1 = "" then m else mapDelete m kv.1
        | none => m) else m) k ⟨v, now + CACHE_TTL_MS⟩ = _
  rw [if_pos hcap, hhead]
  show mapSet (if k0 = "" then m else mapDelete m k0) k ⟨v, now + CACHE_TTL_MS⟩ = _
  rw [if_neg hk0]

/-- One step of the bulk-insert invariant: inserting a fresh nonempty key into
the image of the last CACHE_MAX_ENTRIES processed keys extends the processed
list. -/
theorem setCache_fold_step (t : Int) (v : List SunbizResult) (p : List String)
    (kk : String) (hnd : (p ++ [kk]).Nodup) (hne : ∀ x ∈ p ++ [kk], x ≠ "") :
    setCache t ((lastKeys CACHE_MAX_ENTRIES p).map (entryOf t v)) kk v
      = (lastKeys CACHE_MAX_ENTRIES (p ++ [kk])).map (entryOf t v) := by
  have hkp : kk ∉ p := by
    rw [List.nodup_append] at hnd
    intro hmem
    exact hnd.2.2 hmem (by simp)
  have hLp : lastKeys CACHE_MAX_ENTRIES p ⊆ p := List.drop_subset _ _
  have hkL : kk ∉ lastKeys CACHE_MAX_ENTRIES p := fun hm => hkp (hLp hm)
  have hLget : mapGet ((lastKeys CACHE_MAX_ENTRIES p).map (entryOf t v)) kk = none :=
    mapGet_constmap_none t v _ kk hkL
  by_cases hcap : p.length < CACHE_MAX_ENTRIES
  · have hL : lastKeys CACHE_MAX_ENTRIES p = p := by
      unfold lastKeys
      rw [Nat.sub_eq_zero_of_le (le_of_lt hcap), List.drop_zero]
    have hR : lastKeys CACHE_MAX_ENTRIES (p ++ [kk]) = p ++ [kk] := by
      unfold lastKeys
      have hz : (p ++ [kk]).length - CACHE_MAX_ENTRIES = 0 := by
        simp only [List.length_append, List.length_cons, List.length_nil]
        omega
      rw [hz, List.drop_zero]
    rw [setCache_small t _ kk v (by rw [List.length_map, hL]; exact hcap),
      mapSet_of_mapGet_none _ _ _ hLget, hL, hR, List.map_append]
    rfl
  · push_neg at hcap
    have hLlen : (lastKeys CACHE_MAX_ENTRIES p).length = CACHE_MAX_ENTRIES := by
      unfold lastKeys
      rw [List.length_drop]
      omega
    cases hL : lastKeys CACHE_MAX_ENTRIES p with
    | nil =>
      rw [hL] at hLlen
      exact absurd hLlen.symm (by decide)
    | cons h0 hs =>
      have hh0p : h0 ∈ p := hLp (hL ▸ List.mem_cons_self h0 hs)
      have hh0 : h0 ≠ "" := hne h0 (List.mem_append_left _ hh0p)
      have hhsp : hs ⊆ p := fun x hx => hLp (hL ▸ List.mem_cons_of_mem h0 hx)
      have hkhs : kk ∉ hs := fun hm => hkp (hhsp hm)
      rw [hL] at hLget
      have hfull := setCache_full t ((h0 :: hs).map (entryOf t v)) kk v h0 ⟨v, t + CACHE_TTL_MS⟩
        (by rw [List.length_map, ← hL, hLlen]) (by simp [entryOf]) hh0
      rw [hfull]
      have hdel : mapDelete ((h0 :: hs).map (entryOf t v)) h0 = hs.map (entryOf t v) := by
        simp [mapDelete, entryOf]
      rw [hdel, mapSet_of_mapGet_none _ _ _ (mapGet_constmap_none t v hs kk hkhs)]
      have hR : lastKeys CACHE_MAX_ENTRIES (p ++ [kk]) = hs ++ [kk] := by
        unfold lastKeys
        have hz : (p ++ [kk]).length - CACHE_MAX_ENTRIES
            = (p.length - CACHE_MAX_ENTRIES) + 1 := by
          simp only [List.length_append, List.length_cons, List.length_nil]
          omega
        have hcpos : 0 < CACHE_MAX_ENTRIES := by decide
        rw [hz, @List.drop_append_of_le_length String p [kk]
          (p.length - CACHE_MAX_ENTRIES + 1) (by omega)]
        have hdd : p.drop (p.length - CACHE_MAX_ENTRIES + 1)
            = (p.drop (p.length - CACHE_MAX_ENTRIES)).drop 1 := by
          rw [List.drop_drop, Nat.add_comm]
        rw [hdd]
        unfold lastKeys at hL
        rw [hL]
        rfl
      rw [hR, List.map_append]
      rfl

/-- Bulk-insert characterization: folding setCache over a list of distinct
nonempty keys starting from the empty map leaves exactly the image of the
last CACHE_MAX_ENTRIES keys, in insertion order. -/
theorem foldl_setCache_keys (t : Int) (v : List SunbizResult) (keys : List String) :
    ∀ (p : List String), (p ++ keys).Nodup → (∀ x ∈ p ++ keys, x ≠ "") →
      keys.foldl (fun mm kk => setCache t mm kk v)
          ((lastKeys CACHE_MAX_ENTRIES p).map (entryOf t v))
        = (lastKeys CACHE_MAX_ENTRIES (p ++ keys)).map (entryOf t v) := by
  induction keys with
  | nil =>
    intro p hnd hne
    simp
  | cons kk ks ih =>
    intro p hnd hne
    have hsub : (p ++ [kk]).Sublist (p ++ kk :: ks) :=
      List.Sublist.append_left (List.Sublist.cons₂ kk (List.nil_sublist ks)) p
    have hstep := setCache_fold_step t v p kk (hnd.sublist hsub)
      (fun x hx => hne x (hsub.subset hx))
    rw [List.foldl_cons, hstep]
    have hre : (p ++ [kk]) ++ ks = p ++ kk :: ks := by simp
    have := ih (p ++ [kk]) (by rw [hre]; exact hnd) (by rw [hre]; exact hne)
    rw [this, hre]

/-- The bulk-insert consequence: after folding CACHE_MAX_ENTRIES + 1 distinct
nonempty keys into the empty cache, the first key is not retrievable and every
one of the remaining CACHE_MAX_ENTRIES keys is. -/
theorem insert_201_keys (t : Int) (v : List SunbizResult) (k0 : String)
    (rest : List String) (hnd : (k0 :: rest).Nodup)
    (hne : ∀ x ∈ k0 :: rest, x ≠ "") (hlen : rest.length = CACHE_MAX_ENTRIES) :
    (getCache t ((k0 :: rest).foldl (fun mm kk => setCache t mm kk v) []) k0).1 = none ∧
    ∀ kk ∈ rest,
      (getCache t ((k0 :: rest).foldl (fun mm kk => setCache t mm kk v) []) kk).1
        = some v := by
  have hfold := foldl_setCache_keys t v (k0 :: rest) [] (by simpa using hnd)
    (by simpa using hne)
  have h0 : ((lastKeys CACHE_MAX_ENTRIES []).map (entryOf t v)) = ([] : CacheMap) := rfl
  rw [h0, List.nil_append] at hfold
  have hlast : lastKeys CACHE_MAX_ENTRIES (k0 :: rest) = rest := by
    unfold lastKeys
    have hz : (k0 :: rest).length - CACHE_MAX_ENTRIES = 1 := by
      simp only [List.length_cons, hlen]
      omega
    rw [hz]
    rfl
  rw [hlast] at hfold
  have hk0rest : k0 ∉ rest := (List.nodup_cons.mp hnd).1
  have httl : ¬ t > t + CACHE_TTL_MS := by
    have hp : (0:Int) ≤ CACHE_TTL_MS := by decide
    push_neg
    linarith
  constructor
  · rw [hfold, getCache_of_none t _ k0 (mapGet_constmap_none t v rest k0 hk0rest)]
  · intro kk hkk
    rw [hfold, getCache_of_live t _ kk ⟨v, t + CACHE_TTL_MS⟩
      (mapGet_constmap_some t v rest kk hkk) httl]

/-! ### Concrete cache data for claim C7 -/

/-- A throwaway entry for concrete cache states. -/
def dummyEntry : CacheEntry := ⟨[], 999999999⟩

/-- A full cache (200 entries) whose oldest key is the empty string: the
eviction guard if (oldestKey) treats it as falsy. -/
def fullMapBad : CacheMap :=
  ("", dummyEntry) :: (List.range 199).map (fun i => ("k" ++ toString i, dummyEntry))

/-- The i-th key of the witness family: i + 1 repetitions of the letter k,
so the keys are pairwise distinct and nonempty. -/
def kseq (i : Nat) : String := ⟨List.replicate (i + 1) 'k'⟩

/-- A full cache (200 entries) with distinct nonempty keys. -/
def m200 : CacheMap := (List.range 200).map (fun i => (kseq i, dummyEntry))

theorem kseq_inj : Function.Injective kseq := by
  intro a b h
  have hd : List.replicate (a + 1) 'k' = List.replicate (b + 1) 'k' :=
    congrArg String.data h
  have hl : a + 1 = b + 1 := by
    have := congrArg List.length hd
    simpa using this
  omega

theorem kseq_ne_empty (i : Nat) : kseq i ≠ "" := by
  intro h
  have hd : List.replicate (i + 1) 'k' = ([] : List Char) := congrArg String.data h
  rw [List.replicate_succ] at hd
  exact List.cons_ne_nil _ _ hd

theorem kseq_ne_z (i : Nat) : kseq i ≠ "z" := by
  intro h
  have hd : List.replicate (i + 1) 'k' = ['z'] := congrArg String.data h
  rw [List.replicate_succ] at hd
  injection hd with h1 h2
  exact absurd h1 (by decide)

theorem range_map_kseq_nodup (n : Nat) : ((List.range n).map kseq).Nodup :=
  (List.nodup_range n).map kseq_inj

theorem m200_keys : m200.map Prod.fst = (List.range 200).map kseq := by
  simp only [m200, List.map_map]
  rfl

theorem m200_keys_nodup : (m200.map Prod.fst).Nodup := by
  rw [m200_keys]
  exact range_map_kseq_nodup 200

theorem m200_length : m200.length = CACHE_MAX_ENTRIES := by
  simp [m200, CACHE_MAX_ENTRIES]

theorem m200_head : m200.head? = some (kseq 0, dummyEntry) := rfl

theorem m200_z_none : mapGet m200 "z" = none := by
  apply mapGet_eq_none_of_not_mem
  rw [m200_keys]
  intro hmem
  obtain ⟨i, _, hi⟩ := List.mem_map.mp hmem
  exact kseq_ne_z i hi

theorem zrest_nodup : ("z" :: (List.range 200).map kseq).Nodup := by
  rw [List.nodup_cons]
  refine ⟨?_, range_map_kseq_nodup 200⟩
  intro hmem
  obtain ⟨i, _, hi⟩ := List.mem_map.mp hmem
  exact kseq_ne_z i hi

theorem zrest_ne : ∀ x ∈ "z" :: (List.range 200).map kseq, x ≠ "" := by
  intro x hx
  rcases List.mem_cons.mp hx with hh | hh
  · subst hh
    decide
  · obtain ⟨i, _, hi⟩ := List.mem_map.mp hh
    exact hi ▸ kseq_ne_empty i

/-! ### Claim theorems: cache eviction -/

set_option maxRecDepth 10000 in
/-- Counterexample to claim C7 as stated: when the oldest key of the full map is
the empty string, the source guard if (oldestKey) sees a falsy value and skips
the eviction, so set grows the map to 201 entries and the oldest entry stays
retrievable. -/
theorem C7_counterexample :
    fullMapBad.length = CACHE_MAX_ENTRIES ∧
    (setCache 0 fullMapBad "znew" []).length = CACHE_MAX_ENTRIES + 1 ∧
    mapGet (setCache 0 fullMapBad "znew" []) "" = some dummyEntry := by
  decide

/-- Claim C7 as amended: provided the least-recently-inserted key is nonempty
(the eviction guard skips an empty-string oldest key), set on a map at
capacity with distinct keys evicts exactly the least-recently-inserted entry
(insertion order) before inserting, keeping the size at capacity and
preserving all other entries; and after inserting capacity + 1 distinct
nonempty keys into an empty cache, the first-inserted key is no longer
retrievable while the most recent capacity keys all are. -/
theorem C7_amended :
    (∀ (m : CacheMap) (k0 : String) (e0 : CacheEntry) (k : String)
        (v : List SunbizResult) (t : Int),
      m.length = CACHE_MAX_ENTRIES → m.head? = some (k0, e0) → k0 ≠ "" →
      (m.map Prod.fst).Nodup → mapGet m k = none →
      (setCache t m k v).length = CACHE_MAX_ENTRIES ∧
      mapGet (setCache t m k v) k0 = none ∧
      mapGet (setCache t m k v) k = some ⟨v, t + CACHE_TTL_MS⟩ ∧
      ∀ k2, k2 ≠ k0 → k2 ≠ k → mapGet (setCache t m k v) k2 = mapGet m k2) ∧
    (∀ (t : Int) (v : List SunbizResult) (k0 : String) (rest : List String),
      (k0 :: rest).Nodup → (∀ x ∈ k0 :: rest, x ≠ "") →
      rest.length = CACHE_MAX_ENTRIES →
      (getCache t ((k0 :: rest).foldl (fun mm kk => setCache t mm kk v) []) k0).1
        = none ∧
      ∀ kk ∈ rest,
        (getCache t ((k0 :: rest).foldl (fun mm kk => setCache t mm kk v) []) kk).1
          = some v) :=
  ⟨setCache_at_capacity, insert_201_keys⟩

/-- Witness for C7 as amended at a concrete full cache with distinct nonempty
keys and at the concrete 201-key bulk insert. -/
theorem C7_amended_witness :
    (setCache 0 m200 "z" []).length = CACHE_MAX_ENTRIES ∧
    mapGet (setCache 0 m200 "z" []) (kseq 0) = none ∧
    (getCache 0 (("z" :: (List.range 200).map kseq).foldl
        (fun mm kk => setCache 0 mm kk []) []) "z").1 = none :=
  ⟨(C7_amended.1 m200 (kseq 0) dummyEntry "z" [] 0 m200_length m200_head
      (kseq_ne_empty 0) m200_keys_nodup m200_z_none).1,
    (C7_amended.1 m200 (kseq 0) dummyEntry "z" [] 0 m200_length m200_head
      (kseq_ne_empty 0) m200_keys_nodup m200_z_none).2.1,
    (C7_amended.2 0 [] "z" ((List.range 200).map kseq) zrest_nodup zrest_ne
      (by simp [CACHE_MAX_ENTRIES])).1⟩

end Sunbiz
